import Mathlib

/-!
Verification development for the aiocoap exchange-layer specification.

The repository slice under review contains only the abstract interface
module `src/aiocoap/interfaces.py`; the concrete exchange engine
(deduplication, retransmission, blockwise transfer, observation) exists
in the project but is not part of the slice.  Where a claim is decided
by that missing code, the corresponding definitions below are modelled
from the specification text, and each such definition says so in its
doc comment.
-/

namespace Aiocoap

/-- Modelled from the spec: the concrete transports that implement
`EndpointAddress` equality and hashing are not in the source slice;
`src/aiocoap/interfaces.py` gives only the docstring contract.  An
address carries an opaque transport-specific peer key, a security
(connection) epoch, and an optional local address.  Per the docstring,
the local address (UDP6) is unknown in initially sent packages and is
therefore disregarded for comparison and not hashed. -/
structure EndpointAddress where
  peerKey : Nat
  epoch : Nat
  localAddr : Option Nat

/-- Modelled from the spec: equality of endpoint addresses compares the
peer key and the security epoch; the unhashed local address is
disregarded. -/
def eaEq (a b : EndpointAddress) : Bool :=
  a.peerKey == b.peerKey && a.epoch == b.epoch

/-- Modelled from the spec: the hash covers exactly the peer key and the
security epoch, so that the hash changes between epochs (RFC7252
Section 9.1.2) and equal addresses hash identically. -/
def eaHash (a : EndpointAddress) : Nat :=
  Nat.pair a.peerKey a.epoch

/-- C1: two EndpointAddress values for the same peer and the same
security epoch compare equal and hash identically; two values for the
same peer that differ by connection epoch compare unequal even though
every other field matches. -/
theorem endpointAddress_conversation_identity (a b : EndpointAddress)
    (hpeer : a.peerKey = b.peerKey) :
    (a.epoch = b.epoch → eaEq a b = true ∧ eaHash a = eaHash b) ∧
    (a.epoch ≠ b.epoch → eaEq a b = false) := by
  constructor
  · intro hep
    simp [eaEq, eaHash, hpeer, hep]
  · intro hep
    simp [eaEq, hpeer, hep]

/-- Witness for C1 at concrete addresses: same peer and epoch on the
left pair, an epoch change on the right pair. -/
theorem endpointAddress_conversation_identity_witness :
    (eaEq ⟨3, 7, none⟩ ⟨3, 7, some 9⟩ = true ∧
      eaHash ⟨3, 7, none⟩ = eaHash ⟨3, 7, some 9⟩) ∧
    eaEq ⟨3, 7, none⟩ ⟨3, 8, none⟩ = false := by
  refine ⟨?_, ?_⟩
  · exact (endpointAddress_conversation_identity ⟨3, 7, none⟩ ⟨3, 7, some 9⟩
      (by decide)).1 (by decide)
  · exact (endpointAddress_conversation_identity ⟨3, 7, none⟩ ⟨3, 8, none⟩
      (by decide)).2 (by decide)

/-- C9: hash-identical endpoint addresses also compare equal (the
converse to equal-implies-same-hash), and the unhashed local address is
disregarded for comparison: changing it never breaks equality. -/
theorem endpointAddress_hashEq_implies_eq (a b : EndpointAddress)
    (h : eaHash a = eaHash b) :
    eaEq a b = true ∧
    ∀ l : Option Nat, eaEq a { a with localAddr := l } = true := by
  have hp := (Nat.pair_eq_pair.mp h)
  constructor
  · simp [eaEq, hp.1, hp.2]
  · intro l
    simp [eaEq]

/-- Witness for C9: two concrete addresses whose hashes agree compare
equal, local addresses notwithstanding. -/
theorem endpointAddress_hashEq_implies_eq_witness :
    eaEq ⟨5, 2, some 4⟩ ⟨5, 2, none⟩ = true ∧
    ∀ l : Option Nat, eaEq ⟨5, 2, some 4⟩ ⟨5, 2, l⟩ = true :=
  endpointAddress_hashEq_implies_eq ⟨5, 2, some 4⟩ ⟨5, 2, none⟩ (by decide)

/-- Lifecycle states of an Exchange in the Retransmission Scheduler:
`PENDING -> (ACKED | RST | TIMED_OUT | CANCELLED)`. -/
inductive ExchangeStatus where
  | pending
  | acked
  | rejectedRst
  | timedOut
  | cancelled
deriving DecidableEq, Repr

/-- A terminal outcome delivered on the Request's future-like response
field: a response message, a rejection after RST, or a timeout error. -/
inductive Outcome where
  | response (msg : Nat)
  | rstRejected
  | timeoutErr
deriving DecidableEq, Repr

/-- Modelled from the spec: per-Exchange state of the Retransmission
Scheduler (not in the source slice).  `retryCount` counts
retransmissions so far, `timeout` is the current timer interval,
`sendCount` counts transmissions of the identical bytes (the initial
send included). -/
structure Exchange where
  status : ExchangeStatus
  retryCount : Nat
  timeout : Nat
  sendCount : Nat
deriving DecidableEq, Repr

/-- Events that can reach an Exchange. -/
inductive ExEvent where
  | timerFire
  | ackResponse (msg : Nat)
  | rstEvent
  | cancelEvent
deriving DecidableEq, Repr

/-- Modelled from the spec: a freshly sent confirmable message has been
transmitted once, has no retries yet, and its first timer is scheduled
at `ACK_TIMEOUT * RANDOM_FACTOR`; the drawn initial interval is the
parameter `t0`. -/
def exInit (t0 : Nat) : Exchange :=
  { status := .pending, retryCount := 0, timeout := t0, sendCount := 1 }

/-- Modelled from the spec: one step of the Retransmission Scheduler
state machine (section 4.3), absent from the source slice.  On timer
fire with retry count below `MAX_RETRANSMIT` (the parameter `mr`):
resend identical bytes, double the timeout, increment the retry count.
On timer fire at the limit: transition to `TIMED_OUT` and fail the
result with the timeout error.  A matching ACK/response fulfills the
result; RST fails it as rejected; explicit cancellation suppresses
further retransmission without reporting an outcome.  Events reaching a
non-pending Exchange are ignored. -/
def exStep (mr : Nat) (e : Exchange) : ExEvent → Exchange × Option Outcome
  | .timerFire =>
      if e.status = .pending then
        if e.retryCount < mr then
          ({ e with
              retryCount := e.retryCount + 1
              timeout := 2 * e.timeout
              sendCount := e.sendCount + 1 }, none)
        else
          ({ e with status := .timedOut }, some .timeoutErr)
      else (e, none)
  | .ackResponse m =>
      if e.status = .pending then
        ({ e with status := .acked }, some (.response m))
      else (e, none)
  | .rstEvent =>
      if e.status = .pending then
        ({ e with status := .rejectedRst }, some .rstRejected)
      else (e, none)
  | .cancelEvent =>
      if e.status = .pending then
        ({ e with status := .cancelled }, none)
      else (e, none)

/-- Run an Exchange through a sequence of events, collecting every
outcome delivered along the way. -/
def exRun (mr : Nat) (e : Exchange) : List ExEvent → Exchange × List Outcome
  | [] => (e, [])
  | ev :: evs =>
      let st := exStep mr e ev
      let rest := exRun mr st.1 evs
      (rest.1, st.2.toList ++ rest.2)

/-- Running an Exchange through a concatenation of event lists composes
the runs and concatenates the delivered outcomes. -/
theorem exRun_append (mr : Nat) (e : Exchange) (l1 l2 : List ExEvent) :
    exRun mr e (l1 ++ l2) =
      ((exRun mr (exRun mr e l1).1 l2).1,
        (exRun mr e l1).2 ++ (exRun mr (exRun mr e l1).1 l2).2) := by
  induction l1 generalizing e with
  | nil => simp [exRun]
  | cons ev evs ih => simp [exRun, ih, List.append_assoc]

/-- After `k ≤ mr` unanswered timer fires the Exchange is still pending,
has retried `k` times, resent `k` times, and its timer interval has
doubled `k` times. -/
theorem exRun_fires_pending (mr t0 : Nat) :
    ∀ k, k ≤ mr →
      exRun mr (exInit t0) (List.replicate k .timerFire) =
        ({ status := .pending
           retryCount := k
           timeout := 2 ^ k * t0
           sendCount := 1 + k }, []) := by
  have main : ∀ k e, e.status = .pending → e.retryCount + k ≤ mr →
      exRun mr e (List.replicate k .timerFire) =
        ({ e with
            retryCount := e.retryCount + k
            timeout := 2 ^ k * e.timeout
            sendCount := e.sendCount + k }, []) := by
    intro k
    induction k with
    | zero =>
        intro e hst _
        simp [exRun, pow_zero, one_mul]
    | succ n ih =>
        intro e hst hle
        have hlt : e.retryCount < mr := by omega
        have hstep : exStep mr e .timerFire =
            ({ e with
                retryCount := e.retryCount + 1
                timeout := 2 * e.timeout
                sendCount := e.sendCount + 1 }, none) := by
          simp [exStep, hst, hlt]
        rw [List.replicate_succ]
        simp only [exRun, hstep, Option.toList_none, List.nil_append]
        rw [ih _ (by simpa using hst) (by simp; omega)]
        refine congrArg (fun x => (x, [])) ?_
        have h1 : e.retryCount + 1 + n = e.retryCount + (n + 1) := by omega
        have h2 : 2 ^ n * (2 * e.timeout) = 2 ^ (n + 1) * e.timeout := by ring
        have h3 : e.sendCount + 1 + n = e.sendCount + (n + 1) := by omega
        simp [h1, h2, h3]
  intro k hk
  have := main k (exInit t0) rfl (by simpa [exInit] using hk)
  simpa [exInit, Nat.add_comm] using this

/-- C2: a confirmable exchange that never receives an ACK resends the
identical bytes exactly `MAX_RETRANSMIT` additional times (so `1 + mr`
transmissions in total), with the timer interval doubling after each
fire (starting from the jittered initial interval `t0`), and the final
timer fire transitions the Exchange to `TIMED_OUT` and fails the
outstanding result with the timeout error. -/
theorem retransmission_exhaustion (mr t0 : Nat) :
    (exRun mr (exInit t0) (List.replicate (mr + 1) .timerFire)).1.status
        = .timedOut ∧
    (exRun mr (exInit t0) (List.replicate (mr + 1) .timerFire)).2
        = [.timeoutErr] ∧
    (exRun mr (exInit t0) (List.replicate (mr + 1) .timerFire)).1.sendCount
        = 1 + mr ∧
    (∀ k, k ≤ mr →
      (exRun mr (exInit t0) (List.replicate k .timerFire)).1.timeout
          = 2 ^ k * t0) := by
  have hsplit : exRun mr (exInit t0) (List.replicate (mr + 1) .timerFire) =
      ({ status := .timedOut
         retryCount := mr
         timeout := 2 ^ mr * t0
         sendCount := 1 + mr }, [.timeoutErr]) := by
    have hrep : List.replicate (mr + 1) ExEvent.timerFire =
        List.replicate mr ExEvent.timerFire ++ [ExEvent.timerFire] :=
      List.replicate_succ' mr ExEvent.timerFire
    rw [hrep, exRun_append, exRun_fires_pending mr t0 mr (le_refl mr)]
    simp [exRun, exStep]
  refine ⟨by rw [hsplit], by rw [hsplit], by rw [hsplit], ?_⟩
  intro k hk
  rw [exRun_fires_pending mr t0 k hk]

/-- Witness for C2 at the CoAP defaults `MAX_RETRANSMIT = 4` and a drawn
initial interval of 2: five unanswered timer fires end in `TIMED_OUT`,
and after two fires the interval has doubled twice. -/
theorem retransmission_exhaustion_witness :
    (exRun 4 (exInit 2) (List.replicate 5 .timerFire)).1.status = .timedOut ∧
    (exRun 4 (exInit 2) (List.replicate 2 .timerFire)).1.timeout = 2 ^ 2 * 2 :=
  ⟨(retransmission_exhaustion 4 2).1,
    (retransmission_exhaustion 4 2).2.2.2 2 (by decide)⟩

/-- A non-pending Exchange ignores every further event and delivers no
further outcome. -/
theorem exRun_of_not_pending (mr : Nat) (e : Exchange)
    (h : ¬ e.status = .pending) :
    ∀ evs : List ExEvent, exRun mr e evs = (e, []) := by
  intro evs
  induction evs with
  | nil => rfl
  | cons ev evs ih =>
      have hstep : exStep mr e ev = (e, none) := by
        cases ev <;> simp [exStep, h]
      simp [exRun, hstep, ih]

/-- Helper for C4: starting from any Exchange state, any event sequence
delivers at most one outcome. -/
theorem exRun_length_le_one (mr : Nat) :
    ∀ (evs : List ExEvent) (e : Exchange), (exRun mr e evs).2.length ≤ 1 := by
  intro evs
  induction evs with
  | nil => intro e; simp [exRun]
  | cons ev evs ih =>
      intro e
      by_cases hp : e.status = .pending
      · cases ev with
        | timerFire =>
            by_cases hr : e.retryCount < mr
            · simp [exRun, exStep, hp, hr]
              exact ih _
            · have hnp : ¬ ({ e with status := .timedOut } : Exchange).status
                  = .pending := by simp
              simp [exRun, exStep, hp, hr, exRun_of_not_pending mr _ hnp evs]
        | ackResponse m =>
            have hnp : ¬ ({ e with status := .acked } : Exchange).status
                = .pending := by simp
            simp [exRun, exStep, hp, exRun_of_not_pending mr _ hnp evs]
        | rstEvent =>
            have hnp : ¬ ({ e with status := .rejectedRst } : Exchange).status
                = .pending := by simp
            simp [exRun, exStep, hp, exRun_of_not_pending mr _ hnp evs]
        | cancelEvent =>
            have hnp : ¬ ({ e with status := .cancelled } : Exchange).status
                = .pending := by simp
            simp [exRun, exStep, hp, exRun_of_not_pending mr _ hnp evs]
      · rw [exRun_of_not_pending mr e hp]
        simp

/-- C4: for every Exchange started by sending a confirmable message, at
most one outcome (ACK/response, RST, or timeout) is ever delivered on
the Request's future-like response field, whatever interleaving of timer
fires, ACKs, RSTs and cancellations occurs: the future is never
fulfilled or failed twice. -/
theorem exchange_at_most_one_outcome (mr t0 : Nat) (evs : List ExEvent) :
    (exRun mr (exInit t0) evs).2.length ≤ 1 :=
  exRun_length_le_one mr evs (exInit t0)

/-- Modelled from the spec: one entry of the Deduplication Table (not in
the source slice): a recently processed inbound message ID per endpoint
address, its arrival timestamp, and — for confirmable requests already
answered — the cached response to resend on duplicate delivery. -/
structure DedupEntry where
  remote : EndpointAddress
  mid : Nat
  stamp : Nat
  cached : Option Nat

/-- Server-side state threaded through inbound handling: the
Deduplication Table plus a counter of render invocations on the
Resource. -/
structure ServerState where
  table : List DedupEntry
  renderCount : Nat

/-- The server state before any message has arrived. -/
def srvInit : ServerState :=
  { table := [], renderCount := 0 }

/-- Modelled from the spec: `observe_inbound` looks an inbound message
up among the entries for the same endpoint address and message ID whose
timestamp is still within the retention window. -/
def dedupLookup (t : List DedupEntry) (r : EndpointAddress)
    (mid now window : Nat) : Option DedupEntry :=
  t.find? (fun en =>
    eaEq en.remote r && en.mid == mid && decide (now ≤ en.stamp + window))

/-- Modelled from the spec: inbound handling of a confirmable request
through the Deduplication Table.  A fresh message is recorded with a
timestamp, rendered by the Resource, and its response cached
(`record_response`); a duplicate within the retention window returns
the cached response without re-invoking application logic. -/
def handleInbound (render : Nat → Nat) (s : ServerState) (r : EndpointAddress)
    (mid req now window : Nat) : ServerState × Option Nat :=
  match dedupLookup s.table r mid now window with
  | some en => (s, en.cached)
  | none =>
      ({ table := ⟨r, mid, now, some (render req)⟩ :: s.table
         renderCount := s.renderCount + 1 }, some (render req))

/-- Endpoint-address equality is reflexive. -/
theorem eaEq_refl (a : EndpointAddress) : eaEq a a = true := by
  simp [eaEq]

/-- C3: delivering the same confirmable request twice (same endpoint
address and message ID, the duplicate arriving within the retention
window) invokes the Resource's render callback exactly once; both
deliveries hand the identical response to the network layer, the second
being replayed from the cached response with no state change. -/
theorem dedup_duplicate_replay (render : Nat → Nat) (r : EndpointAddress)
    (mid req t1 t2 window : Nat) (h : t2 ≤ t1 + window) :
    (handleInbound render srvInit r mid req t1 window).2
        = some (render req) ∧
    (handleInbound render
        (handleInbound render srvInit r mid req t1 window).1
        r mid req t2 window).1.renderCount = 1 ∧
    (handleInbound render
        (handleInbound render srvInit r mid req t1 window).1
        r mid req t2 window).2
      = (handleInbound render srvInit r mid req t1 window).2 ∧
    (handleInbound render
        (handleInbound render srvInit r mid req t1 window).1
        r mid req t2 window).1
      = (handleInbound render srvInit r mid req t1 window).1 := by
  have hfirst : handleInbound render srvInit r mid req t1 window =
      ({ table := [⟨r, mid, t1, some (render req)⟩]
         renderCount := 1 }, some (render req)) := by
    simp [handleInbound, dedupLookup, srvInit]
  have hfind : dedupLookup [(⟨r, mid, t1, some (render req)⟩ : DedupEntry)]
        r mid t2 window =
      some ⟨r, mid, t1, some (render req)⟩ := by
    simp [dedupLookup, List.find?, eaEq_refl, h]
  rw [hfirst]
  simp [handleInbound, hfind]

/-- Witness for C3 at a concrete duplicate delivery: render is the
successor function, the duplicate arrives three ticks after the
original, well within a retention window of 100. -/
theorem dedup_duplicate_replay_witness :
    (handleInbound Nat.succ srvInit ⟨1, 2, none⟩ 10 5 0 100).2
        = some (Nat.succ 5) ∧
    (handleInbound Nat.succ
        (handleInbound Nat.succ srvInit ⟨1, 2, none⟩ 10 5 0 100).1
        ⟨1, 2, none⟩ 10 5 3 100).1.renderCount = 1 ∧
    (handleInbound Nat.succ
        (handleInbound Nat.succ srvInit ⟨1, 2, none⟩ 10 5 0 100).1
        ⟨1, 2, none⟩ 10 5 3 100).2
      = (handleInbound Nat.succ srvInit ⟨1, 2, none⟩ 10 5 0 100).2 ∧
    (handleInbound Nat.succ
        (handleInbound Nat.succ srvInit ⟨1, 2, none⟩ 10 5 0 100).1
        ⟨1, 2, none⟩ 10 5 3 100).1
      = (handleInbound Nat.succ srvInit ⟨1, 2, none⟩ 10 5 0 100).1 :=
  dedup_duplicate_replay Nat.succ ⟨1, 2, none⟩ 10 5 0 3 100 (by decide)

/-- Modelled from the spec: one sub-message of a blockwise transfer,
carrying a 0-based block index, the "more follows" flag, the block's
data, and the block size indicator. -/
structure Block where
  index : Nat
  moreFollows : Bool
  data : List Nat
  size : Nat
deriving DecidableEq, Repr

/-- Lifecycle of a BlockwiseAssembly: still accumulating, completed, or
aborted with a ProtocolViolation. -/
inductive AsmPhase where
  | active
  | completed
  | abortedViolation
deriving DecidableEq, Repr

/-- Modelled from the spec: reassembly state for one logical oversized
message (not in the source slice): the partial payload accumulator, the
expected next block index, the negotiated block size (unset before the
first block) and the phase. -/
structure Assembly where
  acc : List Nat
  expected : Nat
  negotiatedSize : Option Nat
  phase : AsmPhase
deriving DecidableEq, Repr

/-- A fresh assembly: nothing accumulated, expecting block 0. -/
def asmInit : Assembly :=
  { acc := [], expected := 0, negotiatedSize := none, phase := .active }

/-- A block's size indicator agrees with the negotiated block size (any
size negotiates on the first block). -/
def sizeOk (a : Assembly) (b : Block) : Bool :=
  match a.negotiatedSize with
  | some s => b.size == s
  | none => true

/-- Modelled from the spec: inbound blockwise handling.  Blocks are
accumulated in arrival order; an out-of-order index or a block-size
change mid-transfer aborts the assembly with a ProtocolViolation; a
block with the "more follows" flag clear and index equal to the
expected count completes the assembly.  Blocks reaching a non-active
assembly are ignored. -/
def recvBlock (a : Assembly) (b : Block) : Assembly :=
  if a.phase = .active then
    if b.index = a.expected ∧ sizeOk a b = true then
      if b.moreFollows then
        { acc := a.acc ++ b.data
          expected := a.expected + 1
          negotiatedSize := some b.size
          phase := .active }
      else
        { acc := a.acc ++ b.data
          expected := a.expected + 1
          negotiatedSize := some b.size
          phase := .completed }
    else { a with phase := .abortedViolation }
  else a

/-- Deliver a list of blocks to an assembly in order. -/
def feedBlocks (a : Assembly) (bs : List Block) : Assembly :=
  bs.foldl recvBlock a

/-- Modelled from the spec: outbound splitting of a payload at a fixed
block size, starting at block index `idx`: every block but the last
carries exactly `sz` bytes and the "more follows" flag; the last block
carries the remainder with the flag clear. -/
def splitFrom (sz idx : Nat) (payload : List Nat) : List Block :=
  if h : payload.length ≤ sz ∨ sz = 0 then
    [⟨idx, false, payload, sz⟩]
  else
    ⟨idx, true, payload.take sz, sz⟩ :: splitFrom sz (idx + 1) (payload.drop sz)
termination_by payload.length
decreasing_by
  simp only [List.length_drop]
  omega

/-- Split a payload into blocks 0..n at a fixed block size. -/
def splitBlocks (payload : List Nat) (sz : Nat) : List Block :=
  splitFrom sz 0 payload

/-- Completion of an active assembly by one block happens exactly when
the block's "more follows" flag is clear and its 0-based index equals
the expected count (given an agreeing block size). -/
theorem recvBlock_completed_iff (a : Assembly) (b : Block)
    (hactive : a.phase = .active) (hsize : sizeOk a b = true) :
    (recvBlock a b).phase = .completed ↔
      b.moreFollows = false ∧ b.index = a.expected := by
  by_cases hidx : b.index = a.expected
  · cases hmore : b.moreFollows <;>
      simp [recvBlock, hactive, hidx, hsize, hmore]
  · simp [recvBlock, hactive, hidx]

/-- Feeding the blocks of `splitFrom` in order into an active assembly
that expects the starting index completes it and appends the payload to
the accumulator. -/
theorem feed_splitFrom (sz : Nat) :
    ∀ (n : Nat) (payload : List Nat), payload.length = n →
      ∀ (acc : List Nat) (idx : Nat) (ns : Option Nat),
        ns = none ∨ ns = some sz →
        (feedBlocks ⟨acc, idx, ns, .active⟩ (splitFrom sz idx payload)).phase
            = .completed ∧
        (feedBlocks ⟨acc, idx, ns, .active⟩ (splitFrom sz idx payload)).acc
            = acc ++ payload := by
  intro n
  induction n using Nat.strong_induction_on with
  | _ n ih =>
    intro payload hlen acc idx ns hns
    rw [splitFrom]
    by_cases hsmall : payload.length ≤ sz ∨ sz = 0
    · rw [dif_pos hsmall]
      rcases hns with rfl | rfl <;> simp [feedBlocks, recvBlock, sizeOk]
    · rw [dif_neg hsmall]
      have hszpos : 0 < sz := by omega
      have hlong : sz < payload.length := by omega
      have hstep : recvBlock ⟨acc, idx, ns, .active⟩
          ⟨idx, true, payload.take sz, sz⟩ =
          ⟨acc ++ payload.take sz, idx + 1, some sz, .active⟩ := by
        rcases hns with rfl | rfl <;> simp [recvBlock, sizeOk]
      have hfeed : feedBlocks ⟨acc, idx, ns, .active⟩
          (⟨idx, true, payload.take sz, sz⟩ ::
            splitFrom sz (idx + 1) (payload.drop sz)) =
          feedBlocks ⟨acc ++ payload.take sz, idx + 1, some sz, .active⟩
            (splitFrom sz (idx + 1) (payload.drop sz)) := by
        simp [feedBlocks, List.foldl, hstep]
      rw [hfeed]
      have hdrop : (payload.drop sz).length < n := by
        simp only [List.length_drop]
        omega
      have := ih (payload.drop sz).length hdrop (payload.drop sz) rfl
        (acc ++ payload.take sz) (idx + 1) (some sz) (Or.inr rfl)
      refine ⟨this.1, ?_⟩
      rw [this.2, List.append_assoc, List.take_append_drop]

/-- C5: splitting any payload at a fixed positive block size and
delivering the resulting blocks 0..n in order (the last with the "more
follows" flag clear) reconstructs the original payload byte-for-byte,
and assembly completion is triggered exactly by a block whose "more
follows" flag is clear and whose 0-based index equals the expected
count. -/
theorem blockwise_roundtrip (payload : List Nat) (sz : Nat) (hsz : 0 < sz) :
    (feedBlocks asmInit (splitBlocks payload sz)).phase = .completed ∧
    (feedBlocks asmInit (splitBlocks payload sz)).acc = payload ∧
    (∀ (a : Assembly) (b : Block), a.phase = .active → sizeOk a b = true →
      ((recvBlock a b).phase = .completed ↔
        b.moreFollows = false ∧ b.index = a.expected)) := by
  have h := feed_splitFrom sz payload.length payload rfl [] 0 none (Or.inl rfl)
  exact ⟨h.1, by simpa using h.2, fun a b => recvBlock_completed_iff a b⟩

/-- Witness for C5: the payload `[1,2,3,4,5]` split at block size 2
(blocks `[1,2]`, `[3,4]`, `[5]`) reassembles to itself, and the
completion criterion holds at a concrete final block. -/
theorem blockwise_roundtrip_witness :
    (feedBlocks asmInit (splitBlocks [1, 2, 3, 4, 5] 2)).phase
        = .completed ∧
    (feedBlocks asmInit (splitBlocks [1, 2, 3, 4, 5] 2)).acc
        = [1, 2, 3, 4, 5] ∧
    ((recvBlock asmInit ⟨0, false, [9], 4⟩).phase = .completed ↔
      (⟨0, false, [9], 4⟩ : Block).moreFollows = false ∧
      (⟨0, false, [9], 4⟩ : Block).index = asmInit.expected) :=
  ⟨(blockwise_roundtrip [1, 2, 3, 4, 5] 2 (by decide)).1,
    (blockwise_roundtrip [1, 2, 3, 4, 5] 2 (by decide)).2.1,
    (blockwise_roundtrip [1, 2, 3, 4, 5] 2 (by decide)).2.2
      asmInit ⟨0, false, [9], 4⟩ rfl rfl⟩

/-- Modelled from the spec: an idle timeout aborts an active assembly
with a ProtocolViolation; a finished assembly is unaffected. -/
def abortIdle (a : Assembly) : Assembly :=
  if a.phase = .active then { a with phase := .abortedViolation } else a

/-- Modelled from the spec: the Dispatcher routes an inbound block to
the one assembly keyed by its conversation; all other assemblies are
untouched. -/
def dispRecv (d : Nat → Assembly) (k : Nat) (b : Block) : Nat → Assembly :=
  fun k2 => if k2 = k then recvBlock (d k2) b else d k2

/-- Modelled from the spec: the Dispatcher applies an idle timeout to
the one assembly it fired for. -/
def dispTimeout (d : Nat → Assembly) (k : Nat) : Nat → Assembly :=
  fun k2 => if k2 = k then abortIdle (d k2) else d k2

/-- C6: an out-of-order block (index other than the expected next
index) or a block-size change mid-transfer aborts exactly the targeted
assembly with a ProtocolViolation, and an idle timeout does likewise;
every other assembly is left untouched, and the aborted assembly
absorbs any further block, so the Dispatcher keeps running. -/
theorem blockwise_violation_isolated (d : Nat → Assembly) (k : Nat)
    (b : Block) (hactive : (d k).phase = .active)
    (hbad : ¬ b.index = (d k).expected ∨ sizeOk (d k) b = false) :
    (dispRecv d k b k).phase = .abortedViolation ∧
    (∀ k2, k2 ≠ k → dispRecv d k b k2 = d k2) ∧
    ((dispTimeout d k k).phase = .abortedViolation) ∧
    (∀ k2, k2 ≠ k → dispTimeout d k k2 = d k2) ∧
    (∀ b2, recvBlock (dispRecv d k b k) b2 = dispRecv d k b k) := by
  have habort : recvBlock (d k) b = { d k with phase := .abortedViolation } := by
    rcases hbad with hidx | hsz
    · simp [recvBlock, hactive, hidx]
    · have : ¬ (b.index = (d k).expected ∧ sizeOk (d k) b = true) := by
        simp [hsz]
      simp [recvBlock, hactive, this]
  refine ⟨?_, ?_, ?_, ?_, ?_⟩
  · simp [dispRecv, habort]
  · intro k2 hk2
    simp [dispRecv, hk2]
  · simp [dispTimeout, abortIdle, hactive]
  · intro k2 hk2
    simp [dispTimeout, hk2]
  · intro b2
    have hk : dispRecv d k b k = { d k with phase := .abortedViolation } := by
      simp [dispRecv, habort]
    rw [hk]
    simp [recvBlock]

/-- Witness for C6: with every assembly fresh, block index 1 arrives
for conversation 0 although index 0 was expected; conversation 0 is
aborted, conversation 5 is untouched, the timed-out view of
conversation 0 is aborted, conversation 3 survives the timeout, and a
further block for conversation 0 is absorbed. -/
theorem blockwise_violation_isolated_witness :
    (dispRecv (fun _ => asmInit) 0 ⟨1, true, [7], 4⟩ 0).phase
        = .abortedViolation ∧
    dispRecv (fun _ => asmInit) 0 ⟨1, true, [7], 4⟩ 5 = asmInit ∧
    (dispTimeout (fun _ => asmInit) 0 0).phase = .abortedViolation ∧
    dispTimeout (fun _ => asmInit) 0 3 = asmInit ∧
    recvBlock (dispRecv (fun _ => asmInit) 0 ⟨1, true, [7], 4⟩ 0)
        ⟨0, false, [8], 4⟩
      = dispRecv (fun _ => asmInit) 0 ⟨1, true, [7], 4⟩ 0 := by
  have h := blockwise_violation_isolated (fun _ => asmInit) 0 ⟨1, true, [7], 4⟩
    rfl (Or.inl (by decide))
  exact ⟨h.1, h.2.1 5 (by decide), h.2.2.1, h.2.2.2.1 3 (by decide),
    h.2.2.2.2 ⟨0, false, [8], 4⟩⟩

/-- Modelled from the spec: one server-side Subscription (not in the
source slice): the last issued sequence number and the notifications
handed to the transport send path so far, each tagged with its sequence
number, in generation order. -/
structure Subscription where
  lastSeq : Nat
  sendQueue : List Nat

/-- A Subscription as accepted, before any trigger: sequence numbering
starts from the initial value `s0`, nothing sent yet. -/
def subInit (s0 : Nat) : Subscription :=
  { lastSeq := s0, sendQueue := [] }

/-- Modelled from the spec: `trigger()` issues the next sequence number
for the Subscription and hands the resulting notification to the
transport send path. -/
def trigger (s : Subscription) : Subscription :=
  { lastSeq := s.lastSeq + 1, sendQueue := s.sendQueue ++ [s.lastSeq + 1] }

/-- Trigger a Subscription `n` times in succession. -/
def triggerN : Nat → Subscription → Subscription
  | 0, s => s
  | n + 1, s => triggerN n (trigger s)

/-- Triggering `n` times appends the `n` next sequence numbers to the
send queue in order. -/
theorem triggerN_sendQueue (n : Nat) :
    ∀ s : Subscription, (triggerN n s).sendQueue =
      s.sendQueue ++ (List.range n).map (fun i => s.lastSeq + 1 + i) := by
  induction n with
  | zero => intro s; simp [triggerN]
  | succ m ih =>
      intro s
      rw [triggerN, ih]
      simp only [trigger, List.append_assoc]
      congr 1
      rw [List.range_succ_eq_map, List.map_cons, List.map_map,
        List.singleton_append]
      have hmap : List.map (fun i => s.lastSeq + 1 + 1 + i) (List.range m)
          = List.map ((fun i => s.lastSeq + 1 + i) ∘ Nat.succ)
              (List.range m) := by
        refine List.map_congr_left ?_
        intro i _
        simp only [Function.comp_apply]
        omega
      rw [hmap, Nat.add_zero]

/-- C7: the sequence numbers issued to an accepted Subscription
strictly increase, and the notifications of successive `trigger()`
calls reach the transport send path in sequence-number order: `n`
triggers put exactly `n` notifications on the send path, tagged
`s0+1, …, s0+n` in that order — in particular three triggers yield
three strictly increasing notifications. -/
theorem observation_notifications_increasing (s0 n : Nat) :
    (triggerN n (subInit s0)).sendQueue
        = (List.range n).map (fun i => s0 + 1 + i) ∧
    (triggerN n (subInit s0)).sendQueue.length = n ∧
    List.Pairwise (· < ·) (triggerN n (subInit s0)).sendQueue := by
  have hq : (triggerN n (subInit s0)).sendQueue
      = (List.range n).map (fun i => s0 + 1 + i) := by
    have h := triggerN_sendQueue n (subInit s0)
    simpa [subInit] using h
  refine ⟨hq, by simp [hq], ?_⟩
  rw [hq]
  exact List.Pairwise.map _ (fun i j hij => by omega)
    (List.pairwise_lt_range n)

/-- Modelled from the spec: the message attributes `determine_remote`
consults — the URI scheme and the unresolved remote authority. -/
structure MsgAddr where
  scheme : Nat
  authority : Nat

/-- Modelled from the spec: a concrete TransportEndpoint as far as
`determine_remote` is concerned: the schemes it can route and its
address resolution for messages it can transport. -/
structure Transport where
  schemes : List Nat
  resolve : Nat → EndpointAddress

/-- A Transport can transport a message exactly when the message's
scheme is one it can route; otherwise the message falls in the
Unsupported error class for this transport. -/
def canTransport (t : Transport) (m : MsgAddr) : Bool :=
  t.schemes.contains m.scheme

/-- Modelled from the spec: `determine_remote` returns a value suitable
for the message's remote property, or `none` when the TransportEndpoint
cannot transport the message (typically because it is of the wrong
scheme). -/
def determine_remote (t : Transport) (m : MsgAddr) : Option EndpointAddress :=
  if canTransport t m then some (t.resolve m.authority) else none

/-- C8: `determine_remote` always yields either an EndpointAddress or
`none`, and it yields `none` exactly when the TransportEndpoint cannot
transport the message — the Unsupported error class. -/
theorem determine_remote_none_iff_unsupported (t : Transport) (m : MsgAddr) :
    ((determine_remote t m).isSome = true ∨ determine_remote t m = none) ∧
    (determine_remote t m = none ↔ canTransport t m = false) := by
  constructor
  · by_cases h : canTransport t m = true
    · exact Or.inl (by simp [determine_remote, h])
    · exact Or.inr (by simp [determine_remote, h])
  · by_cases h : canTransport t m = true <;> simp [determine_remote, h]

/-- The result of a Resource's render per
`src/aiocoap/interfaces.py`: a response message, or the
`aiocoap.message.NoResponse` sentinel suppressing the answer on the
request/response layer. -/
inductive RenderResult where
  | response (msg : Nat)
  | noResponse
deriving DecidableEq, Repr

/-- What the server emits for one confirmable request: whether an ACK
went out on the message layer, and the response (if any) produced on
the request/response layer. -/
structure ConReplyOut where
  ackSent : Bool
  appResponse : Option Nat

/-- Modelled from the spec: server handling of a confirmable request
(the responder is not in the source slice).  Per the `Resource.render`
docstring, an empty ACK is sent responding to a CON request on the
message layer even when the NoResponse sentinel suppresses the answer
on the request/response layer. -/
def handleConRequest (render : Nat → RenderResult) (req : Nat) :
    ConReplyOut :=
  match render req with
  | .response m => { ackSent := true, appResponse := some m }
  | .noResponse => { ackSent := true, appResponse := none }

/-- C10: when render returns the NoResponse sentinel for a confirmable
request, suppression happens only at the request/response layer: the
message layer still sends an (empty) ACK, and an ACK always stops the
peer's retransmission machine — a pending Exchange that receives it is
ACKED and never resends again. -/
theorem noResponse_suppresses_only_app_layer (render : Nat → RenderResult)
    (req : Nat) :
    (handleConRequest render req).ackSent = true ∧
    ((handleConRequest render req).appResponse = none ↔
      render req = .noResponse) ∧
    (∀ (mr : Nat) (e : Exchange), e.status = .pending →
      (exStep mr e (.ackResponse 0)).1.status = .acked ∧
      ∀ evs : List ExEvent,
        exRun mr (exStep mr e (.ackResponse 0)).1 evs
          = ((exStep mr e (.ackResponse 0)).1, [])) := by
  refine ⟨?_, ?_, ?_⟩
  · cases hr : render req <;> simp [handleConRequest, hr]
  · cases hr : render req <;> simp [handleConRequest, hr]
  · intro mr e he
    have hstep : exStep mr e (.ackResponse 0)
        = ({ e with status := .acked }, some (.response 0)) := by
      simp [exStep, he]
    constructor
    · rw [hstep]
    · intro evs
      rw [hstep]
      exact exRun_of_not_pending mr _ (by simp) evs

/-- Witness for C10: a resource that always returns NoResponse still
causes the ACK, suppresses the application response, and the peer's
freshly sent Exchange stops retransmitting once the ACK arrives. -/
theorem noResponse_suppresses_only_app_layer_witness :
    (handleConRequest (fun _ => RenderResult.noResponse) 3).ackSent
        = true ∧
    (handleConRequest (fun _ => RenderResult.noResponse) 3).appResponse
        = none ∧
    (exStep 4 (exInit 2) (.ackResponse 0)).1.status = .acked ∧
    exRun 4 (exStep 4 (exInit 2) (.ackResponse 0)).1 [.timerFire]
      = ((exStep 4 (exInit 2) (.ackResponse 0)).1, []) :=
  ⟨(noResponse_suppresses_only_app_layer (fun _ => RenderResult.noResponse)
      3).1,
    (noResponse_suppresses_only_app_layer (fun _ => RenderResult.noResponse)
      3).2.1.mpr rfl,
    ((noResponse_suppresses_only_app_layer (fun _ => RenderResult.noResponse)
      3).2.2 4 (exInit 2) rfl).1,
    ((noResponse_suppresses_only_app_layer (fun _ => RenderResult.noResponse)
      3).2.2 4 (exInit 2) rfl).2 [.timerFire]⟩

end Aiocoap
